import Mathlib

/-!
# libblepp: the BLE scanner interface (`blepp/lescan.h`) and the example client
(`examples/bluetooth.cc`)

A shallow embedding of the declarations of `blepp/lescan.h` and of the pure parts of
`examples/bluetooth.cc`, followed by the properties established about them.

Conventions
* C++ `int` values are `Int`; `uint8_t` reads are `Nat` values reduced `% 256`.
* `std::string` is a `List Char` where it is indexed, `String` where it is only compared.
* A call of `::close(fd)` is an entry `fd` in a list of performed closes.
* Code that throws returns `Except`; undefined behaviour (an out-of-range write) is `none`.
-/

set_option autoImplicit false

namespace BLEPP

/-! ## `blepp/lescan.h`: `LeAdvertisingEventType` -/

/-- The enum class `LeAdvertisingEventType` of `lescan.h`. -/
inductive LeAdvertisingEventType where
  | ADV_IND
  | ADV_DIRECT_IND
  | ADV_SCAN_IND
  | ADV_NONCONN_IND
  | SCAN_RSP
  deriving DecidableEq, Repr, Inhabited

namespace LeAdvertisingEventType

/-- The enumerator values written in `lescan.h` (`ADV_IND = 0x00`, ..., `SCAN_RSP = 0x04`). -/
def code : LeAdvertisingEventType → Nat
  | ADV_IND => 0x00
  | ADV_DIRECT_IND => 0x01
  | ADV_SCAN_IND => 0x02
  | ADV_NONCONN_IND => 0x03
  | SCAN_RSP => 0x04

/-- All enumerators, in declaration order. -/
def all : List LeAdvertisingEventType :=
  [ADV_IND, ADV_DIRECT_IND, ADV_SCAN_IND, ADV_NONCONN_IND, SCAN_RSP]

end LeAdvertisingEventType

/-! ## `blepp/lescan.h`: the exception classes of `HCIScanner` -/

namespace HCIScanner

/-- The exception hierarchy of `HCIScanner`: `Error` and its subclasses `Interrupted`,
`IOError` (which also takes the `errno` value) and `HCIError`. -/
inductive Exception where
  | Error (why : String)
  | Interrupted (why : String)
  | IOError (why : String) (errno_val : Int)
  | HCIError (why : String)
  deriving DecidableEq, Repr

/-- Whether an exception is an `HCIError` ("the HCI device spat out invalid data"). -/
def Exception.isHCIError : Exception → Bool
  | .HCIError _ => true
  | _ => false

/-! ## `blepp/lescan.h`: `HCIScanner::FD` -/

/-- The class `HCIScanner::FD`: one `int` member `fd`. -/
structure FD where
  fd : Int
  deriving DecidableEq, Repr

namespace FD

/-- The defaulted constructor `FD() = default`, with the member initialiser `int fd = -1`. -/
def default : FD := { fd := -1 }

/-- The converting constructor `FD(int fd_): fd(fd_) {}`. -/
def ofInt (fd_ : Int) : FD := { fd := fd_ }

/-- The conversion `operator int() const { return fd; }`. -/
def toInt (self : FD) : Int := self.fd

/-- The member `void set(int fd_) { fd = fd_; }`. -/
def set (_self : FD) (fd_ : Int) : FD := { fd := fd_ }

/-- The destructor `~FD() { if (fd != -1) ::close(fd); }`: the list of `::close` calls it
performs, in order. -/
def destroy (self : FD) : List Int :=
  if self.fd ≠ -1 then [self.fd] else []

/-- How a handle comes into being: `FD()` or `FD(fd_)`. -/
inductive Ctor where
  | dflt
  | fromInt (fd_ : Int)
  deriving DecidableEq, Repr

/-- The handle a constructor call produces. -/
def construct : Ctor → FD
  | .dflt => FD.default
  | .fromInt fd_ => FD.ofInt fd_

/-- The handle after construction followed by the `set` calls of `sets`, in order. -/
def afterSets (c : Ctor) (sets : List Int) : FD :=
  sets.foldl FD.set (construct c)

/-- Every value the handle holds during its life: the constructed one, then the one stored
by each `set` call. -/
def held (c : Ctor) (sets : List Int) : List Int :=
  (construct c).toInt :: sets

/-- All `::close` calls made over a whole life: construction, the `set` calls, destruction.
Neither a constructor nor `set` calls `::close`, so these are the destructor's. -/
def lifetimeCloses (c : Ctor) (sets : List Int) : List Int :=
  (afterSets c sets).destroy

/-- The handle leaks nothing over a life: every value other than -1 it ever held was closed
exactly once. -/
def NeverLeaks (c : Ctor) (sets : List Int) : Prop :=
  ∀ x ∈ held c sets, x ≠ -1 → (lifetimeCloses c sets).count x = 1

instance (c : Ctor) (sets : List Int) : Decidable (NeverLeaks c sets) :=
  inferInstanceAs (Decidable (∀ x ∈ held c sets, x ≠ -1 → (lifetimeCloses c sets).count x = 1))

end FD

/-! ## `blepp/lescan.h`: `ScanType`, `FilterDuplicates` and the filtering flags -/

/-- The enum class `HCIScanner::ScanType`. -/
inductive ScanType where
  | Passive
  | Active
  deriving DecidableEq, Repr

/-- The enumerator values `Passive = 0x00`, `Active = 0x01`. -/
def ScanType.code : ScanType → Nat
  | .Passive => 0x00
  | .Active => 0x01

/-- The enum class `HCIScanner::FilterDuplicates`. -/
inductive FilterDuplicates where
  | Off
  | Hardware
  | Software
  | Both
  deriving DecidableEq, Repr

/-- The two private members `hardware_filtering` and `software_filtering` of `HCIScanner`. -/
structure FilterFlags where
  hardware_filtering : Bool
  software_filtering : Bool
  deriving DecidableEq, Repr

/-- Modelled from the spec: the body of the constructor
`HCIScanner(bool start, FilterDuplicates, ScanType, const std::string &)` is not part of
`lescan.h`; the flags it stores follow the table of the four duplicate modes
(Off: disabled/disabled, Hardware: enabled/disabled, Software: disabled/enabled,
Both: enabled/enabled). -/
def filterFlags : FilterDuplicates → FilterFlags
  | .Off => { hardware_filtering := false, software_filtering := false }
  | .Hardware => { hardware_filtering := true, software_filtering := false }
  | .Software => { hardware_filtering := false, software_filtering := true }
  | .Both => { hardware_filtering := true, software_filtering := true }

end HCIScanner

/-! ## `blepp/lescan.h`: `AdvertisingResponse` -/

/-- Modelled from the spec: the class `UUID` comes from `blepp/blestatemachine.h`, which is
not part of the sources; the 16-, 32- and 128-bit forms are "normalized to one
representation", kept here as the bytes of the advertised value. -/
structure UUID where
  bytes : List Nat
  deriving DecidableEq, Repr

namespace AdvertisingResponse

/-- The nested struct `AdvertisingResponse::Name`. -/
structure Name where
  name : String
  complete : Bool
  deriving DecidableEq, Repr

/-- The nested struct `AdvertisingResponse::Flags`; all five booleans default to `false`. -/
structure Flags where
  LE_limited_discoverable : Bool := false
  LE_general_discoverable : Bool := false
  BR_EDR_unsupported : Bool := false
  simultaneous_LE_BR_controller : Bool := false
  simultaneous_LE_BR_host : Bool := false
  flag_data : List Nat
  deriving DecidableEq, Repr

end AdvertisingResponse

/-- The struct `AdvertisingResponse` of `lescan.h`; `rssi` is an `int8_t`. -/
structure AdvertisingResponse where
  address : String
  type : LeAdvertisingEventType
  rssi : Int
  UUIDs : List UUID := []
  uuid_16_bit_complete : Bool := false
  uuid_32_bit_complete : Bool := false
  uuid_128_bit_complete : Bool := false
  local_name : Option AdvertisingResponse.Name := none
  flags : Option AdvertisingResponse.Flags := none
  manufacturer_specific_data : List (List Nat) := []
  service_data : List (List Nat) := []
  unparsed_data_with_types : List (List Nat) := []
  raw_packet : List (List Nat) := []
  deriving DecidableEq, Repr

namespace HCIScanner

/-! ## `blepp/lescan.h`: `FilterEntry` and `scanned_devices` -/

/-- The private struct `HCIScanner::FilterEntry`: `mac_address` and `int type`. -/
structure FilterEntry where
  mac_address : String
  type : Int
  deriving DecidableEq, Repr

/-- Modelled from the spec: the body of `explicit FilterEntry(const AdvertisingResponse &)`
is not part of `lescan.h`; a duplicate-filter entry is the "(address, event_type) pair" of
the response, the event type stored in the `int` member by its enumerator value. -/
def FilterEntry.ofResponse (r : AdvertisingResponse) : FilterEntry :=
  { mac_address := r.address, type := (r.type.code : Int) }

/-- Modelled from the spec: `std::set<FilterEntry> scanned_devices` depends on
`FilterEntry::operator<`, whose body is not part of `lescan.h`; for the set "ordering is
irrelevant, membership only", so it is kept as the list of its members. -/
abbrev ScannedDevices := List FilterEntry

/-- Modelled from the spec: the duplicate filter lives in the missing `lescan.cc`;
`should_emit(record)` "returns true and inserts the identity if absent; returns false if
already present". The result is the returned flag and the set afterwards. -/
def should_emit (scanned_devices : ScannedDevices) (record : AdvertisingResponse) :
    Bool × ScannedDevices :=
  if FilterEntry.ofResponse record ∈ scanned_devices then
    (false, scanned_devices)
  else
    (true, FilterEntry.ofResponse record :: scanned_devices)

/-- The flags `should_emit` returns for a sequence of responses passed through the filter
one after the other, starting from the set `scanned_devices`. -/
def emitFlags : ScannedDevices → List AdvertisingResponse → List Bool
  | _, [] => []
  | scanned_devices, r :: rs =>
    (should_emit scanned_devices r).1 :: emitFlags (should_emit scanned_devices r).2 rs

/-- The set of seen identities after a sequence of responses went through the filter. -/
def scannedAfter : ScannedDevices → List AdvertisingResponse → ScannedDevices
  | scanned_devices, [] => scanned_devices
  | scanned_devices, r :: rs => scannedAfter (should_emit scanned_devices r).2 rs

/-- Two responses have the same identity for the filter: same address, same event type. -/
def sameIdentity (a b : AdvertisingResponse) : Prop :=
  a.address = b.address ∧ a.type = b.type

instance (a b : AdvertisingResponse) : Decidable (sameIdentity a b) :=
  inferInstanceAs (Decidable (_ ∧ _))

/-- An advertisement (`ADV_IND`) from the device `AA:BB:CC:DD:EE:FF`. -/
def advFromA : AdvertisingResponse :=
  { address := "AA:BB:CC:DD:EE:FF", type := .ADV_IND, rssi := -60 }

/-- A scan response (`SCAN_RSP`) from the same device `AA:BB:CC:DD:EE:FF`. -/
def scanRspFromA : AdvertisingResponse :=
  { address := "AA:BB:CC:DD:EE:FF", type := .SCAN_RSP, rssi := -61 }

/-! ## `blepp/lescan.h`: `parse_packet`

`parse_packet` is declared in `lescan.h`; its body is in the missing `lescan.cc`. The
definitions below follow the algorithm the specification gives for it (steps 1 to 6 of the
advertising packet decoder). -/

/-- Modelled from the spec: the event-type byte of a report is "mapped to the
`LeAdvertisingEventType` enum - unknown values are a protocol error, not silently
ignored". The byte is looked up among the enumerator values of `lescan.h`. -/
def decodeEventType (b : Nat) : Except Exception LeAdvertisingEventType :=
  match LeAdvertisingEventType.all.find? (fun e => e.code == b) with
  | some e => .ok e
  | none => .error (.HCIError "Unknown advertising event type")

/-- Modelled from the spec: the parts of the decoder that the specification delegates to
the Bluetooth Core Specification and its Supplement, and whose constants are in headers and
a source file that are missing (`bluetooth/hci.h`, `lescan.cc`).
* `envelope` validates "the outer HCI event envelope (event code = LE meta-event,
  sub-event = advertising report)" and returns the bytes that follow it, `none` when the
  envelope is rejected;
* `address` turns the 7 bytes "address-type + address" into the normalized address text,
  `none` for an unrecognized address type;
* `dispatch` applies one AD structure (its type code and payload bytes, the length byte
  removed) to the response under construction, `none` for a protocol violation such as a
  second Flags structure. -/
structure DecoderTables where
  envelope : List Nat → Option (List Nat)
  address : List Nat → Option String
  dispatch : AdvertisingResponse → List Nat → Option AdvertisingResponse

/-- Modelled from the spec: step 4 and 5 of the decoder. The AD payload of one report is
"a sequence of AD structures, each prefixed by a 1-byte length (covering type+payload)";
decoding stops "when the declared lengths exactly exhaust" the payload, and "a structure
whose declared length would overrun" it "is a protocol error". -/
def parseAD (t : DecoderTables) (rsp : AdvertisingResponse) (payload : List Nat) :
    Except Exception AdvertisingResponse :=
  match payload with
  | [] => .ok rsp
  | length :: rest =>
    if rest.length < length then
      .error (.HCIError "AD structure overruns the advertising data")
    else
      match t.dispatch rsp (rest.take length) with
      | none => .error (.HCIError "Invalid AD structure")
      | some rsp2 => parseAD t rsp2 (rest.drop length)
termination_by payload.length
decreasing_by
  simp only [List.length_drop, List.length_cons]
  omega

/-- Modelled from the spec: "a trailing RSSI byte (signed ...)", the byte read as `int8_t`. -/
def rssiOfByte (b : Nat) : Int :=
  if b % 256 < 128 then ((b % 256 : Nat) : Int) else ((b % 256 : Nat) : Int) - 256

/-- Modelled from the spec: step 3 and 6 of the decoder. For each of the `n` reports
"consume in strict order: event type (1 byte ...), address-type + address (7 bytes),
advertising-data length `L`, `L` bytes of AD-structure payload, and finally a trailing RSSI
byte"; one response per report, in report order. -/
def parseReports (t : DecoderTables) :
    Nat → List Nat → Except Exception (List AdvertisingResponse)
  | 0, _ => .ok []
  | _ + 1, [] => .error (.HCIError "Truncated advertising report")
  | n + 1, evt :: rest =>
    match decodeEventType evt with
    | .error e => .error e
    | .ok type =>
      if rest.length < 7 then
        .error (.HCIError "Truncated address")
      else
        match t.address (rest.take 7) with
        | none => .error (.HCIError "Unknown address type")
        | some address =>
          match rest.drop 7 with
          | [] => .error (.HCIError "Missing advertising data length")
          | L :: rest2 =>
            if rest2.length < L then
              .error (.HCIError "Advertising data overruns the packet")
            else
              match parseAD t { address := address, type := type, rssi := 127 }
                  (rest2.take L) with
              | .error e => .error e
              | .ok rsp =>
                match rest2.drop L with
                | [] => .error (.HCIError "Missing RSSI")
                | rssi :: rest3 =>
                  match parseReports t n rest3 with
                  | .error e => .error e
                  | .ok rsps => .ok ({ rsp with rssi := rssiOfByte rssi } :: rsps)

/-- Modelled from the spec: `parse_packet(bytes) -> sequence<AdvertisingResponse>`, steps 1
and 2 of the decoder: validate the envelope, "reject otherwise with a protocol error", then
"read the report count `N`" and decode `N` reports. -/
def parse_packet (t : DecoderTables) (packet : List Nat) :
    Except Exception (List AdvertisingResponse) :=
  match t.envelope packet with
  | none => .error (.HCIError "Not an LE advertising report")
  | some [] => .error (.HCIError "Missing report count")
  | some (N :: body) => parseReports t N body

/-- The wire bytes of one AD structure with the given body (type code and payload): the
length byte, then the body. -/
def encodeADStructure (body : List Nat) : List Nat :=
  body.length :: body

/-- The wire bytes of a sequence of complete AD structures. -/
def encodeAD (bodies : List (List Nat)) : List Nat :=
  (bodies.map encodeADStructure).flatten

/-- The fields of one advertising report as they stand on the wire. -/
structure RawReport where
  evt : Nat
  addr : List Nat
  payload : List Nat
  rssi : Nat
  deriving DecidableEq, Repr

/-- The wire bytes of one advertising report: event type, address type and address, the
advertising-data length, the advertising data, the RSSI. -/
def RawReport.encode (r : RawReport) : List Nat :=
  r.evt :: (r.addr ++ r.payload.length :: (r.payload ++ [r.rssi]))

/-- An AD payload in which a structure overruns: complete structures `bodies`, then a
structure that declares `length` bytes while only `rest` remain, `rest.length < length`. -/
def overrunPayload (bodies : List (List Nat)) (length : Nat) (rest : List Nat) : List Nat :=
  encodeAD bodies ++ length :: rest

/-- The bytes after the envelope of a packet announcing `N` reports: the complete reports
`before`, then a report with AD payload `payload`, then whatever follows it. -/
def packetBody (N : Nat) (before : List RawReport) (evt : Nat) (addr payload tl : List Nat) :
    List Nat :=
  N :: ((before.map RawReport.encode).flatten ++
    evt :: (addr ++ payload.length :: (payload ++ tl)))

/-! ### An instance of the decoder tables

The constants are those of the Bluetooth Core Specification (HCI event packet `0x04`,
LE meta-event `0x3E`, advertising-report sub-event `0x02`, public and random address types
`0x00` and `0x01`) and of its Supplement (the AD type codes). -/

/-- Modelled from the spec: the envelope check of the missing `lescan.cc`; the packet
indicator, the event code (LE meta-event), the parameter length and the sub-event
(advertising report) precede the report count. -/
def hciEnvelope : List Nat → Option (List Nat)
  | 0x04 :: 0x3E :: _ :: 0x02 :: rest => some rest
  | _ => none

/-- One upper-case hexadecimal digit. -/
def hexDigit (n : Nat) : Char :=
  "0123456789ABCDEF".toList.getD (n % 16) '0'

/-- Modelled from the spec: the address is "textually normalized (colon-separated hex)";
"an unrecognized type is a protocol error". The six address bytes are printed in the
order given. -/
def hciAddress : List Nat → Option String
  | ty :: bytes =>
    if ty = 0x00 ∨ ty = 0x01 then
      some (String.intercalate ":"
        (bytes.map fun b => String.mk [hexDigit (b / 16), hexDigit b]))
    else none
  | [] => none

/-- Modelled from the spec: the "structured decode of the AD Flags field (5 defined bits)
plus the raw byte(s)"; the constructor `Flags(std::vector<uint8_t> &&)` is declared in
`lescan.h` without a body. -/
def mkFlags (flag_data : List Nat) : AdvertisingResponse.Flags :=
  { LE_limited_discoverable := (flag_data.getD 0 0).testBit 0
    LE_general_discoverable := (flag_data.getD 0 0).testBit 1
    BR_EDR_unsupported := (flag_data.getD 0 0).testBit 2
    simultaneous_LE_BR_controller := (flag_data.getD 0 0).testBit 3
    simultaneous_LE_BR_host := (flag_data.getD 0 0).testBit 4
    flag_data := flag_data }

/-- The UUIDs of a list of `width`-byte values. -/
def uuidsOf (width : Nat) (data : List Nat) : List UUID :=
  (data.toChunks width).map UUID.mk

/-- Modelled from the spec: step 5 of the decoder, "dispatch each AD structure by its type
code to the matching `AdvertisingResponse` field (flags, 16/32/128-bit UUID list with its
completeness flag, shortened/complete name, manufacturer-specific data, service data);
anything unrecognized is appended verbatim to `unparsed_data_with_types`"; "multiple Flags
AD structures within one report is a protocol error". A structure of declared length zero
has no type code and is rejected. -/
def hciDispatch (rsp : AdvertisingResponse) (body : List Nat) : Option AdvertisingResponse :=
  match body with
  | [] => none
  | ty :: data =>
    let r := { rsp with raw_packet := rsp.raw_packet ++ [body] }
    if ty = 0x01 then
      if rsp.flags.isSome then none else some { r with flags := some (mkFlags data) }
    else if ty = 0x02 ∨ ty = 0x03 then
      some { r with UUIDs := r.UUIDs ++ uuidsOf 2 data, uuid_16_bit_complete := ty = 0x03 }
    else if ty = 0x04 ∨ ty = 0x05 then
      some { r with UUIDs := r.UUIDs ++ uuidsOf 4 data, uuid_32_bit_complete := ty = 0x05 }
    else if ty = 0x06 ∨ ty = 0x07 then
      some { r with UUIDs := r.UUIDs ++ uuidsOf 16 data, uuid_128_bit_complete := ty = 0x07 }
    else if ty = 0x08 ∨ ty = 0x09 then
      some { r with
        local_name := some { name := String.mk (data.map Char.ofNat), complete := ty = 0x09 } }
    else if ty = 0x16 then
      some { r with service_data := r.service_data ++ [data] }
    else if ty = 0xFF then
      some { r with manufacturer_specific_data := r.manufacturer_specific_data ++ [data] }
    else
      some { r with unparsed_data_with_types := r.unparsed_data_with_types ++ [body] }

/-- The decoder tables with the constants of the Bluetooth Core Specification. -/
def hciTables : DecoderTables :=
  { envelope := hciEnvelope, address := hciAddress, dispatch := hciDispatch }

/-- A packet with one report from `AA:BB:CC:DD:EE:FF` whose advertising data is 5 bytes
long and starts with a structure declaring 10 bytes, of which only 4 remain. -/
def overrunPacket : List Nat :=
  [0x04, 0x3E, 0x10, 0x02, 0x01,
   0x00, 0x00, 0xAA, 0xBB, 0xCC, 0xDD, 0xEE, 0xFF,
   0x05, 0x0A, 0x09, 0x46, 0x6F, 0x6F,
   0xC4]

end HCIScanner

/-! ## `examples/bluetooth.cc` -/

namespace Example

/-- The literal `" (--------------------)"` that `throbber` copies into `base`. -/
def throbberBase : List Char := " (--------------------)".toList

/-- The function `throbber(int i)`. `%` on `int` truncates towards zero (`Int.tmod`).
The write `base[i + 2] = 'O'` is defined only inside the string; `none` stands for the
undefined behaviour of a write outside it. The result is `base` followed by
`base.size()` backspace characters. -/
def throbber (i : Int) : Option (List Char) :=
  let base := throbberBase
  let i := Int.tmod i 40
  let i := if i ≥ 20 then 19 - (i - 20) else i
  if 0 ≤ i + 2 ∧ i + 2 < (base.length : Int) then
    let base := base.set (i + 2).toNat 'O'
    some (base ++ List.replicate base.length '\x08')
  else
    none

/-- The position `p` of the throbber for a counter value `i`: it runs up from 0 to 19 and
back down. -/
def throbberPos (i : Int) : Int :=
  if i % 40 < 20 then i % 40 else 39 - i % 40

/-- The read `d[k]` of a `const uint8_t *d` pointing at the payload bytes `d`. -/
def byteAt (d : List Nat) (k : Nat) : Nat :=
  d.getD k 0 % 256

/-- The value `int val = d[1 + 2 * i] * 256 + d[0 + 2 * i]` of iteration `i` of the loop in
`notify_cb`. -/
def sampleAt (d : List Nat) (i : Nat) : Int :=
  ((byteAt d (1 + 2 * i) * 256 + byteAt d (0 + 2 * i) : Nat) : Int)

/-- One iteration of the loop body on the deque `points`:
`points.push_back(val); if (points.size() > 300) points.pop_front();`. -/
def pushPoint (points : List Int) (val : Int) : List Int :=
  let points := points ++ [val]
  if points.length > 300 then points.tail else points

/-- The first `k` iterations of `for (int i = 0; i < 7; ++i)` in `notify_cb`. -/
def pushSamples (k : Nat) (d : List Nat) (points : List Int) : List Int :=
  (List.range k).foldl (fun pts i => pushPoint pts (sampleAt d i)) points

/-- The seven values the loop of `notify_cb` extracts from a payload, in loop order. -/
def samples (d : List Nat) : List Int :=
  (List.range 7).map (sampleAt d)

/-- The value `const uint32_t seq = d[14] | (d[15] << 8) | (d[16] << 16) | (d[17] << 8)`. -/
def seq (d : List Nat) : Nat :=
  (byteAt d 14 ||| (byteAt d 15 <<< 8) ||| (byteAt d 16 <<< 16) ||| (byteAt d 17 <<< 8))
    % 2 ^ 32

/-- The value `const int16_t bv = d[18] | (d[19] << 8)`. -/
def bv (d : List Nat) : Int :=
  let v : Nat := (byteAt d 18 ||| (byteAt d 19 <<< 8)) % 2 ^ 16
  if v < 2 ^ 15 then (v : Int) else (v : Int) - 2 ^ 16

/-- The variables captured by `notify_cb` that it updates without consulting the clock or
floating point: the deque `points` and the packet counter `count`. -/
structure CbState where
  points : List Int
  count : Int
  deriving DecidableEq, Repr

/-- The captured variables when `main` creates the callback: `points` empty, `count = -1`. -/
def CbState.init : CbState := { points := [], count := -1 }

/-- The callback `notify_cb` on the state above for a notification with payload `d`:
`count` is incremented and reset to 0 on reaching 10, and the seven samples are pushed. -/
def notify_cb (s : CbState) (d : List Nat) : CbState :=
  let count := s.count + 1
  let count := if count = 10 then 0 else count
  { points := pushSamples 7 d s.points, count := count }

/-- The state after the callback ran once for each payload of `ds`, in order. -/
def runCallbacks (ds : List (List Nat)) : CbState :=
  ds.foldl notify_cb CbState.init

/-- Every sample value extracted from the payloads `ds`, in arrival order. -/
def allSamples (ds : List (List Nat)) : List Int :=
  (ds.map samples).flatten

/-- The last `n` elements of a list (all of it when it is shorter), oldest first. -/
def keepLast (n : Nat) (l : List Int) : List Int :=
  l.drop (l.length - n)

/-- The unsigned little-endian integer of bytes 14..17 of the payload,
`d[14] + 2^8*d[15] + 2^16*d[16] + 2^24*d[17]`: what a four-byte sequence number is. -/
def seqLittleEndian (d : List Nat) : Nat :=
  byteAt d 14 + 2 ^ 8 * byteAt d 15 + 2 ^ 16 * byteAt d 16 + 2 ^ 24 * byteAt d 17

/-- A 20-byte payload whose only non-zero byte is `d[17] = 1`. -/
def payloadHigh : List Nat :=
  [0, 0, 0, 0, 0, 0, 0, 0, 0, 0, 0, 0, 0, 0, 0, 0, 0, 1, 0, 0]

/-- A 20-byte payload whose only non-zero byte is `d[15] = 1`. -/
def payloadLow : List Nat :=
  [0, 0, 0, 0, 0, 0, 0, 0, 0, 0, 0, 0, 0, 0, 0, 1, 0, 0, 0, 0]

/-- A 20-byte payload with the bytes 0, 1, ..., 19. -/
def payloadCount : List Nat :=
  [0, 1, 2, 3, 4, 5, 6, 7, 8, 9, 10, 11, 12, 13, 14, 15, 16, 17, 18, 19]

end Example


/-! # Properties -/

namespace LeAdvertisingEventType

theorem code_le_four (e : LeAdvertisingEventType) : e.code ≤ 4 := by
  cases e <;> decide

theorem code_injective : Function.Injective code := by
  intro a b h
  cases a <;> cases b <;> first | rfl | (exact absurd h (by decide))

end LeAdvertisingEventType

namespace HCIScanner

/-! ## Event types -/

theorem decodeEventType_of_ge_five (b : Nat) (hb : 5 ≤ b) :
    decodeEventType b = .error (.HCIError "Unknown advertising event type") := by
  have hne : ∀ e : LeAdvertisingEventType, (e.code == b) = false := by
    intro e
    have := LeAdvertisingEventType.code_le_four e
    simp only [beq_eq_false_iff_ne, ne_eq]
    omega
  simp [decodeEventType, LeAdvertisingEventType.all, List.find?, hne]

theorem decodeEventType_code (e : LeAdvertisingEventType) :
    decodeEventType e.code = .ok e := by
  cases e <;> rfl

theorem exists_code_eq (n : Nat) (hn : n ≤ 4) : ∃ e : LeAdvertisingEventType, e.code = n := by
  interval_cases n
  · exact ⟨.ADV_IND, rfl⟩
  · exact ⟨.ADV_DIRECT_IND, rfl⟩
  · exact ⟨.ADV_SCAN_IND, rfl⟩
  · exact ⟨.ADV_NONCONN_IND, rfl⟩
  · exact ⟨.SCAN_RSP, rfl⟩

/-- C1. Decoding an event-type byte through the enumerator values of
`LeAdvertisingEventType` gives `ADV_IND` for 0x00, `ADV_DIRECT_IND` for 0x01,
`ADV_SCAN_IND` for 0x02, `ADV_NONCONN_IND` for 0x03 and `SCAN_RSP` for 0x04, and an
`HCIError` (no variant) for every other value, in particular 0x05..0xFF; the code map of
the enum is injective and its image is exactly the values 0 to 4. -/
theorem event_type_exhaustive :
    decodeEventType 0x00 = .ok .ADV_IND ∧
    decodeEventType 0x01 = .ok .ADV_DIRECT_IND ∧
    decodeEventType 0x02 = .ok .ADV_SCAN_IND ∧
    decodeEventType 0x03 = .ok .ADV_NONCONN_IND ∧
    decodeEventType 0x04 = .ok .SCAN_RSP ∧
    (∀ b : Nat, 0x05 ≤ b →
      (∃ why, decodeEventType b = .error (.HCIError why)) ∧
      ∀ e, decodeEventType b ≠ .ok e) ∧
    (∀ (b : Nat) (e : LeAdvertisingEventType), decodeEventType b = .ok e ↔ e.code = b) ∧
    Function.Injective LeAdvertisingEventType.code ∧
    (∀ n : Nat, (∃ e : LeAdvertisingEventType, e.code = n) ↔ n ≤ 4) := by
  refine ⟨rfl, rfl, rfl, rfl, rfl, ?_, ?_, LeAdvertisingEventType.code_injective, ?_⟩
  · intro b hb
    rw [decodeEventType_of_ge_five b hb]
    exact ⟨⟨_, rfl⟩, fun e h => by cases h⟩
  · intro b e
    constructor
    · intro h
      by_cases hb : 5 ≤ b
      · rw [decodeEventType_of_ge_five b hb] at h
        cases h
      · obtain ⟨e2, he2⟩ := exists_code_eq b (by omega)
        rw [← he2, decodeEventType_code] at h
        cases h
        exact he2
    · intro h
      rw [← h]
      exact decodeEventType_code e
  · intro n
    constructor
    · rintro ⟨e, rfl⟩
      exact LeAdvertisingEventType.code_le_four e
    · exact exists_code_eq n

/-! ## Duplicate modes -/

/-- C6. For every `FilterDuplicates` mode the `hardware_filtering` flag is true exactly for
`Hardware` and `Both`, the `software_filtering` flag exactly for `Software` and `Both`,
`Off` sets both false, and the two flags determine the mode. -/
theorem filterFlags_table :
    (∀ m : FilterDuplicates,
      ((filterFlags m).hardware_filtering = true ↔ (m = .Hardware ∨ m = .Both)) ∧
      ((filterFlags m).software_filtering = true ↔ (m = .Software ∨ m = .Both))) ∧
    filterFlags .Off = { hardware_filtering := false, software_filtering := false } ∧
    Function.Injective filterFlags := by
  refine ⟨?_, rfl, ?_⟩
  · intro m
    cases m <;> simp [filterFlags]
  · intro a b h
    cases a <;> cases b <;> first | rfl | (exact absurd h (by decide))

/-! ## The socket handle `FD` -/

namespace FD

theorem destroy_of_ne (f : FD) (h : f.fd ≠ -1) : f.destroy = [f.fd] := by
  simp [destroy, h]

theorem destroy_of_eq (f : FD) (h : f.fd = -1) : f.destroy = [] := by
  simp [destroy, h]

theorem foldl_set_fd (sets : List Int) (f : FD) :
    (sets.foldl FD.set f).fd = (f.fd :: sets).getLast (List.cons_ne_nil _ _) := by
  induction sets generalizing f with
  | nil => rfl
  | cons a rest ih =>
    rw [List.foldl_cons, ih, List.getLast_cons (List.cons_ne_nil _ _)]
    rfl

theorem afterSets_toInt (c : Ctor) (sets : List Int) :
    (afterSets c sets).toInt = (held c sets).getLast (List.cons_ne_nil _ _) :=
  foldl_set_fd sets (construct c)

theorem afterSets_mem_held (c : Ctor) (sets : List Int) :
    (afterSets c sets).toInt ∈ held c sets := by
  rw [afterSets_toInt]
  exact List.getLast_mem _

theorem count_lifetimeCloses (c : Ctor) (sets : List Int) (x : Int) (hx : x ≠ -1) :
    (lifetimeCloses c sets).count x = if x = (afterSets c sets).toInt then 1 else 0 := by
  unfold lifetimeCloses toInt
  by_cases h : (afterSets c sets).fd = -1
  · rw [destroy_of_eq _ h, h]
    simp [hx]
  · rw [destroy_of_ne _ h]
    by_cases hxe : x = (afterSets c sets).fd
    · simp [hxe]
    · simp [hxe, Ne.symm hxe]

theorem destroy_eq_ite (f : FD) :
    f.destroy = (if f.toInt = -1 then [] else [f.toInt]) := by
  by_cases h : f.fd = -1 <;> simp [destroy, toInt, h]

/-- C3. Destroying a handle closes the descriptor it holds exactly once when that is not -1
and closes nothing when it is -1; no other descriptor is closed; a default-constructed
handle holds -1 (and converts to -1), so destroying it closes nothing. -/
theorem destroy_closes_held (f : FD) :
    f.destroy = (if f.toInt = -1 then [] else [f.toInt]) ∧
    f.destroy.count f.toInt = (if f.toInt = -1 then 0 else 1) ∧
    (∀ x : Int, x ≠ f.toInt → f.destroy.count x = 0) ∧
    (-1 : Int) ∉ f.destroy ∧
    FD.default.toInt = -1 ∧
    FD.default.destroy = [] ∧
    (∀ fd_ : Int, (FD.ofInt fd_).toInt = fd_) := by
  refine ⟨destroy_eq_ite f, ?_, ?_, ?_, rfl, rfl, fun _ => rfl⟩
  · by_cases h : f.fd = -1 <;> simp [destroy, toInt, h]
  · intro x hx
    by_cases h : f.fd = -1
    · simp [destroy, h]
    · rw [destroy_of_ne _ h, List.count_eq_zero, List.mem_singleton]
      exact hx
  · by_cases h : f.fd = -1
    · simp [destroy, h]
    · simp [destroy, h]
      exact fun e => h e.symm

/-- C4, as stated, fails: after `FD(3)`, `set(4)` and destruction the handle has held 3 and
4, and only 4 was closed. -/
theorem neverLeaks_counterexample :
    held (.fromInt 3) [4] = [3, 4] ∧
    lifetimeCloses (.fromInt 3) [4] = [4] ∧
    ¬ NeverLeaks (.fromInt 3) [4] := by
  refine ⟨rfl, rfl, ?_⟩
  intro h
  exact absurd (h 3 (by simp [held, construct, ofInt, toInt]) (by decide)) (by decide)

/-- C4, amended. Over construction, any number of `set` calls and destruction, the only
`::close` calls are the destructor's: the descriptor held at destruction (the constructed
one or the argument of the last `set`) is closed exactly once when it is not -1, and no
other descriptor is closed, so a descriptor that a later `set` replaced by a different
value is not closed by the handle unless that value is again the one held at destruction.
Every held descriptor other than -1 is closed exactly once if and only if each of them is
the one held at destruction. -/
theorem lifetime_closes_last_held (c : Ctor) (sets : List Int) :
    (held c sets).getLast? = some (afterSets c sets).toInt ∧
    lifetimeCloses c sets =
      (if (afterSets c sets).toInt = -1 then [] else [(afterSets c sets).toInt]) ∧
    (∀ x : Int, x ≠ -1 →
      (lifetimeCloses c sets).count x = if x = (afterSets c sets).toInt then 1 else 0) ∧
    (NeverLeaks c sets ↔
      ∀ x ∈ held c sets, x ≠ -1 → x = (afterSets c sets).toInt) ∧
    (sets = [] → NeverLeaks c sets) ∧
    (∀ fd_ : Int, NeverLeaks .dflt [fd_]) ∧
    (∀ x ∈ held c sets, x ≠ -1 →
      ((lifetimeCloses c sets).count x = 0 ↔ x ≠ (afterSets c sets).toInt)) := by
  refine ⟨?_, ?_, count_lifetimeCloses c sets, ?_, ?_, ?_, ?_⟩
  · rw [afterSets_toInt]
    exact List.getLast?_eq_getLast _ _
  · exact destroy_eq_ite (afterSets c sets)
  · unfold NeverLeaks
    constructor
    · intro h x hx hne
      have := h x hx hne
      rw [count_lifetimeCloses c sets x hne] at this
      by_contra hcon
      simp [hcon] at this
    · intro h x hx hne
      rw [count_lifetimeCloses c sets x hne, if_pos (h x hx hne)]
  · intro hs x hx hne
    subst hs
    have hx2 : x = (afterSets c []).toInt := by
      simpa [held, afterSets] using hx
    rw [count_lifetimeCloses c [] x hne, if_pos hx2]
  · intro fd_ x hx hne
    have hx2 : x = (afterSets .dflt [fd_]).toInt := by
      have : x = -1 ∨ x = fd_ := by
        simpa [held, construct, FD.default, toInt] using hx
      rcases this with h | h
      · exact absurd h hne
      · rw [h]; rfl
    rw [count_lifetimeCloses .dflt [fd_] x hne, if_pos hx2]
  · intro x _ hne
    rw [count_lifetimeCloses c sets x hne]
    by_cases hxe : x = (afterSets c sets).toInt
    · simp [hxe]
    · simp [hxe]

/-- C4, amended, at `FD()`, `set(3)`, `set(3)` and destruction: the handle held -1 and 3,
and 3, the descriptor held at destruction, was closed exactly once. At `FD(3)`, `set(4)`,
`set(3)` and destruction: 3 was replaced by `set(4)` but is again the one held at
destruction and is closed once, while 4 is not closed. -/
theorem lifetime_closes_last_held_witness :
    lifetimeCloses .dflt [3, 3] = [3] ∧ NeverLeaks .dflt [3, 3] ∧
    held (.fromInt 3) [4, 3] = [3, 4, 3] ∧
    lifetimeCloses (.fromInt 3) [4, 3] = [3] ∧
    (lifetimeCloses (.fromInt 3) [4, 3]).count 3 = 1 ∧
    (lifetimeCloses (.fromInt 3) [4, 3]).count 4 = 0 :=
  ⟨rfl,
    (lifetime_closes_last_held .dflt [3, 3]).2.2.2.1.2 (by
      intro x hx hne
      have : x = -1 ∨ x = 3 := by
        simpa [held, construct, FD.default, toInt] using hx
      rcases this with h | h
      · exact absurd h hne
      · rw [h]; rfl),
    rfl, rfl,
    ((lifetime_closes_last_held (.fromInt 3) [4, 3]).2.2.1 3 (by decide)).trans rfl,
    ((lifetime_closes_last_held (.fromInt 3) [4, 3]).2.2.2.2.2.2 4
      (by simp [held]) (by decide)).2 (by decide)⟩

end FD

/-! ## The duplicate filter -/

theorem ofResponse_eq_iff (a b : AdvertisingResponse) :
    FilterEntry.ofResponse a = FilterEntry.ofResponse b ↔ sameIdentity a b := by
  unfold FilterEntry.ofResponse sameIdentity
  constructor
  · intro h
    injection h with h1 h2
    exact ⟨h1, LeAdvertisingEventType.code_injective (Int.ofNat.inj h2)⟩
  · rintro ⟨h1, h2⟩
    rw [h1, h2]

theorem mem_should_emit (s : ScannedDevices) (r : AdvertisingResponse) (e : FilterEntry) :
    e ∈ (should_emit s r).2 ↔ e ∈ s ∨ e = FilterEntry.ofResponse r := by
  unfold should_emit
  by_cases h : FilterEntry.ofResponse r ∈ s
  · rw [if_pos h]
    constructor
    · exact fun he => Or.inl he
    · rintro (he | he)
      · exact he
      · rw [he]; exact h
  · rw [if_neg h, List.mem_cons]
    exact or_comm

theorem should_emit_fst (s : ScannedDevices) (r : AdvertisingResponse) :
    (should_emit s r).1 = decide (FilterEntry.ofResponse r ∉ s) := by
  unfold should_emit
  by_cases h : FilterEntry.ofResponse r ∈ s <;> simp [h]

theorem length_emitFlags (s : ScannedDevices) (rs : List AdvertisingResponse) :
    (emitFlags s rs).length = rs.length := by
  induction rs generalizing s with
  | nil => rfl
  | cons r rest ih => simp [emitFlags, ih]

theorem emitFlags_getElem? (s : ScannedDevices) (rs : List AdvertisingResponse) (i : Nat)
    (hi : i < rs.length) :
    (emitFlags s rs)[i]? = some (decide (FilterEntry.ofResponse rs[i] ∉ s ∧
      ∀ r ∈ rs.take i, ¬ sameIdentity r rs[i])) := by
  induction rs generalizing s i with
  | nil => simp at hi
  | cons r rest ih =>
    cases i with
    | zero => simp [emitFlags, should_emit_fst]
    | succ k =>
      have hk : k < rest.length := by simpa using hi
      simp only [emitFlags, List.getElem?_cons_succ, List.getElem_cons_succ,
        List.take_succ_cons]
      rw [ih _ k hk]
      congr 1
      rw [decide_eq_decide, mem_should_emit, ofResponse_eq_iff]
      simp only [List.mem_cons, forall_eq_or_imp, not_or]
      constructor
      · rintro ⟨⟨h1, h2⟩, h3⟩
        exact ⟨h1, fun hs => h2 ⟨hs.1.symm, hs.2.symm⟩, h3⟩
      · rintro ⟨h1, h2, h3⟩
        exact ⟨⟨h1, fun hs => h2 ⟨hs.1.symm, hs.2.symm⟩⟩, h3⟩

theorem mem_scannedAfter (s : ScannedDevices) (rs : List AdvertisingResponse)
    (e : FilterEntry) :
    e ∈ scannedAfter s rs ↔ e ∈ s ∨ ∃ r ∈ rs, e = FilterEntry.ofResponse r := by
  induction rs generalizing s with
  | nil => simp [scannedAfter]
  | cons r rest ih =>
    simp only [scannedAfter, ih, mem_should_emit, List.mem_cons, exists_eq_or_imp, or_assoc]

theorem emitFlags_replicate (r : AdvertisingResponse) (s : ScannedDevices)
    (h : FilterEntry.ofResponse r ∈ s) (n : Nat) :
    emitFlags s (List.replicate n r) = List.replicate n false := by
  induction n with
  | zero => rfl
  | succ k ih =>
    have h2 : should_emit s r = (false, s) := by simp [should_emit, h]
    simp only [List.replicate_succ, emitFlags, h2, ih]

/-- C2. Passing a sequence of responses through the software duplicate filter, starting
from an empty `scanned_devices`, the `i`-th response is emitted (`should_emit` returns
true, and its entry is in the set afterwards) if and only if no earlier response of the
sequence has the same address and the same event type. In particular an `ADV_IND` followed
by a `SCAN_RSP` from the same address are both emitted, and of `n + 1` identical
observations only the first is emitted. -/
theorem duplicate_filter_first_occurrence (rs : List AdvertisingResponse) (i : Nat)
    (hi : i < rs.length) :
    ((emitFlags [] rs)[i]? = some true ↔ ∀ r ∈ rs.take i, ¬ sameIdentity r rs[i]) ∧
    ((emitFlags [] rs)[i]? = some false ↔ ∃ r ∈ rs.take i, sameIdentity r rs[i]) ∧
    (emitFlags [] rs).length = rs.length ∧
    FilterEntry.ofResponse rs[i] ∈ scannedAfter [] rs ∧
    (∀ a b : AdvertisingResponse, a.address = b.address → a.type = .ADV_IND →
      b.type = .SCAN_RSP → emitFlags [] [a, b] = [true, true]) ∧
    (∀ (r : AdvertisingResponse) (n : Nat),
      emitFlags [] (List.replicate (n + 1) r) = true :: List.replicate n false) := by
  have key := emitFlags_getElem? [] rs i hi
  refine ⟨?_, ?_, length_emitFlags [] rs, ?_, ?_, ?_⟩
  · rw [key]
    simp
  · rw [key]
    simp
  · rw [mem_scannedAfter]
    exact Or.inr ⟨rs[i], List.getElem_mem _, rfl⟩
  · intro a b hab ha hb
    have hne : FilterEntry.ofResponse b ≠ FilterEntry.ofResponse a := by
      intro h
      have := ((ofResponse_eq_iff b a).1 h).2
      rw [ha, hb] at this
      cases this
    simp [emitFlags, should_emit, hne]
  · intro r n
    have h1 : should_emit [] r = (true, [FilterEntry.ofResponse r]) := by simp [should_emit]
    simp only [List.replicate_succ, emitFlags, h1]
    rw [emitFlags_replicate r _ (List.mem_singleton.2 rfl) n]

/-- C2 at a concrete sequence: an advertisement, a scan response from the same address,
then the advertisement again; the third response (index 2) is not emitted. -/
theorem duplicate_filter_first_occurrence_witness :
    2 < [advFromA, scanRspFromA, advFromA].length ∧
    (emitFlags [] [advFromA, scanRspFromA, advFromA])[2]? = some false :=
  ⟨by decide,
    ((duplicate_filter_first_occurrence [advFromA, scanRspFromA, advFromA] 2
      (by decide)).2.1).2 ⟨advFromA, by simp, rfl, rfl⟩⟩

/-! ## The advertising packet decoder -/

theorem decodeEventType_error (b : Nat) (e : Exception)
    (h : decodeEventType b = .error e) : e.isHCIError = true := by
  unfold decodeEventType at h
  split at h
  · cases h
  · cases h
    rfl

theorem parseAD_error_of_length_le (t : DecoderTables) (n : Nat) :
    ∀ (payload : List Nat), payload.length ≤ n →
      ∀ (rsp : AdvertisingResponse) (e : Exception),
        parseAD t rsp payload = .error e → e.isHCIError = true := by
  induction n with
  | zero =>
    intro payload hn rsp e h
    have hnil : payload = [] := List.length_eq_zero.1 (Nat.le_zero.1 hn)
    rw [hnil, parseAD] at h
    cases h
  | succ k ih =>
    intro payload hn rsp e h
    cases payload with
    | nil =>
      rw [parseAD] at h
      cases h
    | cons length rest =>
      rw [parseAD] at h
      split at h
      · cases h
        rfl
      · split at h
        · cases h
          rfl
        · refine ih (rest.drop length) ?_ _ e h
          simp only [List.length_drop, List.length_cons] at hn ⊢
          omega

theorem parseAD_error (t : DecoderTables) (payload : List Nat) (rsp : AdvertisingResponse)
    (e : Exception) (h : parseAD t rsp payload = .error e) : e.isHCIError = true :=
  parseAD_error_of_length_le t payload.length payload (Nat.le_refl _) rsp e h

theorem parseAD_overrun (t : DecoderTables) (length : Nat) (rest : List Nat)
    (hover : rest.length < length) (bodies : List (List Nat)) :
    ∀ (rsp rsp2 : AdvertisingResponse),
      parseAD t rsp (overrunPayload bodies length rest) ≠ .ok rsp2 := by
  induction bodies with
  | nil =>
    intro rsp rsp2 h
    simp only [overrunPayload, encodeAD, List.map_nil, List.flatten_nil, List.nil_append] at h
    rw [parseAD, if_pos hover] at h
    cases h
  | cons body more ih =>
    intro rsp rsp2 h
    have hshape : overrunPayload (body :: more) length rest =
        body.length :: (body ++ overrunPayload more length rest) := by
      simp [overrunPayload, encodeAD, encodeADStructure]
    rw [hshape, parseAD] at h
    have hlen : ¬ (body ++ overrunPayload more length rest).length < body.length := by
      simp
    rw [if_neg hlen, List.take_left, List.drop_left] at h
    split at h
    · cases h
    · exact ih _ _ h

theorem parseReports_error (t : DecoderTables) (n : Nat) :
    ∀ (bytes : List Nat) (e : Exception),
      parseReports t n bytes = .error e → e.isHCIError = true := by
  induction n with
  | zero =>
    intro bytes e h
    simp [parseReports] at h
  | succ k ih =>
    intro bytes e h
    cases bytes with
    | nil =>
      simp only [parseReports] at h
      cases h
      rfl
    | cons evt rest =>
      simp only [parseReports] at h
      split at h
      · cases h
        exact decodeEventType_error evt _ (by assumption)
      · split at h
        · cases h; rfl
        · split at h
          · cases h; rfl
          · split at h
            · cases h; rfl
            · split at h
              · cases h; rfl
              · split at h
                · cases h
                  exact parseAD_error t _ _ _ (by assumption)
                · split at h
                  · cases h; rfl
                  · split at h
                    · cases h
                      exact ih _ _ (by assumption)
                    · cases h

theorem parseReports_ok_inv (t : DecoderTables) (n evt : Nat) (rest : List Nat)
    (rsps : List AdvertisingResponse)
    (h : parseReports t (n + 1) (evt :: rest) = .ok rsps) :
    7 ≤ rest.length ∧
    ∃ (L : Nat) (rest2 : List Nat), rest.drop 7 = L :: rest2 ∧ L ≤ rest2.length ∧
      (∃ rsp0 rsp, parseAD t rsp0 (rest2.take L) = .ok rsp) ∧
      ∃ (rssi : Nat) (rest3 : List Nat) (more : List AdvertisingResponse),
        rest2.drop L = rssi :: rest3 ∧ parseReports t n rest3 = .ok more := by
  simp only [parseReports] at h
  split at h
  · cases h
  · split at h
    · cases h
    · rename_i hlen
      split at h
      · cases h
      · split at h
        · cases h
        · rename_i L rest2 hdrop
          split at h
          · cases h
          · rename_i hL
            split at h
            · cases h
            · rename_i rsp hparse
              split at h
              · cases h
              · rename_i rssi rest3 hdrop2
                split at h
                · cases h
                · rename_i more hmore
                  exact ⟨by omega, L, rest2, hdrop, by omega, ⟨_, rsp, hparse⟩,
                    rssi, rest3, more, hdrop2, hmore⟩

theorem parseReports_overrun (t : DecoderTables) (evt : Nat) (addr tl : List Nat)
    (haddr : addr.length = 7) (bodies : List (List Nat)) (length : Nat) (rest : List Nat)
    (hover : rest.length < length) (before : List RawReport) :
    (∀ r ∈ before, r.addr.length = 7) →
    ∀ (N : Nat), before.length < N → ∀ (rsps : List AdvertisingResponse),
      parseReports t N ((before.map RawReport.encode).flatten ++
        evt :: (addr ++ (overrunPayload bodies length rest).length ::
          (overrunPayload bodies length rest ++ tl))) ≠ .ok rsps := by
  induction before with
  | nil =>
    intro _ N hN rsps h
    obtain ⟨n, rfl⟩ : ∃ n, N = n + 1 := ⟨N - 1, by simp at hN; omega⟩
    simp only [List.map_nil, List.flatten_nil, List.nil_append] at h
    obtain ⟨_, L, rest2, hdrop, _, ⟨rsp0, rsp, hparse⟩, _⟩ := parseReports_ok_inv t n _ _ _ h
    rw [List.drop_left' haddr] at hdrop
    injection hdrop with hL hrest2
    subst hL hrest2
    rw [List.take_left] at hparse
    exact parseAD_overrun t length rest hover bodies rsp0 rsp hparse
  | cons r more ih =>
    intro hb N hN rsps h
    obtain ⟨n, rfl⟩ : ∃ n, N = n + 1 := ⟨N - 1, by simp at hN; omega⟩
    have hr : r.addr.length = 7 := hb r (List.mem_cons_self _ _)
    have hmore : ∀ x ∈ more, x.addr.length = 7 := fun x hx => hb x (List.mem_cons_of_mem _ hx)
    have hn : more.length < n := by simpa using hN
    simp only [List.map_cons, List.flatten_cons, RawReport.encode, List.cons_append,
      List.append_assoc, List.nil_append] at h
    obtain ⟨_, L, rest2, hdrop, _, _, rssi, rest3, rs2, hdrop2, hrec⟩ :=
      parseReports_ok_inv t n _ _ _ h
    rw [List.drop_left' hr] at hdrop
    injection hdrop with hL hrest2
    subst hL hrest2
    rw [List.drop_left] at hdrop2
    injection hdrop2 with _ hrest3
    subst hrest3
    exact ih hmore n hn rs2 hrec

theorem parse_packet_error (t : DecoderTables) (packet : List Nat) (e : Exception)
    (h : parse_packet t packet = .error e) : e.isHCIError = true := by
  unfold parse_packet at h
  split at h
  · cases h; rfl
  · cases h; rfl
  · exact parseReports_error t _ _ e h

/-- C5. A packet whose envelope is accepted and in which, within the announced reports, an
AD structure declares more bytes than remain in the advertising data of its report is
rejected by `parse_packet` with an `HCIError`; no list of records, truncated or otherwise,
is returned for it. -/
theorem parse_packet_rejects_overrun (t : DecoderTables) (packet : List Nat) (N : Nat)
    (before : List RawReport) (evt : Nat) (addr : List Nat) (bodies : List (List Nat))
    (length : Nat) (rest tl : List Nat)
    (henv : t.envelope packet =
      some (packetBody N before evt addr (overrunPayload bodies length rest) tl))
    (hN : before.length < N)
    (hbefore : ∀ r ∈ before, r.addr.length = 7)
    (haddr : addr.length = 7)
    (hover : rest.length < length) :
    (∃ why, parse_packet t packet = .error (.HCIError why)) ∧
    ∀ rsps, parse_packet t packet ≠ .ok rsps := by
  have hno : ∀ rsps, parse_packet t packet ≠ .ok rsps := by
    intro rsps h
    unfold parse_packet at h
    rw [henv] at h
    exact parseReports_overrun t evt addr tl haddr bodies length rest hover before hbefore N hN
      rsps h
  refine ⟨?_, hno⟩
  cases hres : parse_packet t packet with
  | ok rsps => exact absurd hres (hno rsps)
  | error e =>
    have he := parse_packet_error t packet e hres
    cases e with
    | HCIError why => exact ⟨why, rfl⟩
    | Error why => cases he
    | Interrupted why => cases he
    | IOError why n => cases he

/-- C5 at the packet `overrunPacket`: one report whose 5-byte advertising data starts with
a structure declaring 10 bytes while 4 remain. -/
theorem parse_packet_rejects_overrun_witness :
    ([0x09, 0x46, 0x6F, 0x6F] : List Nat).length < 10 ∧
    hciTables.envelope overrunPacket =
      some (packetBody 1 [] 0x00 [0x00, 0xAA, 0xBB, 0xCC, 0xDD, 0xEE, 0xFF]
        (overrunPayload [] 10 [0x09, 0x46, 0x6F, 0x6F]) [0xC4]) ∧
    ((∃ why, parse_packet hciTables overrunPacket = .error (.HCIError why)) ∧
      ∀ rsps, parse_packet hciTables overrunPacket ≠ .ok rsps) :=
  ⟨by decide, rfl,
    parse_packet_rejects_overrun hciTables overrunPacket 1 [] 0x00
      [0x00, 0xAA, 0xBB, 0xCC, 0xDD, 0xEE, 0xFF] [] 10 [0x09, 0x46, 0x6F, 0x6F] [0xC4]
      rfl (by decide) (by simp) rfl (by decide)⟩

end HCIScanner


namespace Example

/-! ## The throbber -/

theorem throbber_natCast (n : Nat) : throbber (n : Int) = throbber ((n % 40 : Nat) : Int) := by
  have h1 : Int.tmod (n : Int) 40 = ((n % 40 : Nat) : Int) := (Int.ofNat_tmod n 40).symm
  have h2 : Int.tmod ((n % 40 : Nat) : Int) 40 = ((n % 40 : Nat) : Int) :=
    (Int.ofNat_tmod (n % 40) 40).symm.trans (by rw [Nat.mod_mod])
  unfold throbber
  simp only [h1, h2]

theorem throbberPos_natCast (n : Nat) :
    throbberPos (n : Int) = throbberPos ((n % 40 : Nat) : Int) := by
  have h1 : (n : Int) % 40 = ((n % 40 : Nat) : Int) := (Int.ofNat_emod n 40).symm
  have h2 : ((n % 40 : Nat) : Int) % 40 = ((n % 40 : Nat) : Int) :=
    (Int.ofNat_emod (n % 40) 40).symm.trans (by rw [Nat.mod_mod])
  unfold throbberPos
  simp only [h1, h2]

set_option maxRecDepth 100000 in
theorem throbber_fin (n : Fin 40) :
    0 ≤ throbberPos (n.val : Int) ∧ throbberPos (n.val : Int) ≤ 19 ∧
    throbber (n.val : Int) =
      some (throbberBase.set (throbberPos (n.val : Int) + 2).toNat 'O' ++
        List.replicate 23 '\x08') ∧
    (throbberPos (n.val : Int) + 2).toNat < throbberBase.length ∧
    2 ≤ (throbberPos (n.val : Int) + 2).toNat ∧
    (throbberPos (n.val : Int) + 2).toNat ≤ 21 ∧
    throbberBase[(throbberPos (n.val : Int) + 2).toNat]? = some '-' ∧
    (throbber (n.val : Int)).map List.length = some 46 ∧
    (throbber (n.val : Int)).map (List.count 'O') = some 1 ∧
    (throbber (n.val : Int)).map (List.drop 23) = some (List.replicate 23 '\x08') := by
  revert n
  decide

/-- C10. For every `i >= 0`, with `p = i mod 40` when that is below 20 and
`p = 39 - (i mod 40)` otherwise, `0 <= p <= 19` and `throbber(i)` is the 23-character base
with the character at index `p + 2` replaced by `'O'`, followed by 23 backspaces: the write
is inside the string, on one of the twenty dashes at indices 2..21 (the space and the
parentheses are at indices 0, 1 and 22), and the result has 46 characters, exactly one of
them `'O'`. -/
theorem throbber_in_track (i : Int) (hi : 0 ≤ i) :
    throbberPos i = (if i % 40 < 20 then i % 40 else 39 - i % 40) ∧
    0 ≤ throbberPos i ∧ throbberPos i ≤ 19 ∧
    throbber i =
      some (throbberBase.set (throbberPos i + 2).toNat 'O' ++ List.replicate 23 '\x08') ∧
    (throbberPos i + 2).toNat < throbberBase.length ∧
    2 ≤ (throbberPos i + 2).toNat ∧
    (throbberPos i + 2).toNat ≤ 21 ∧
    throbberBase[(throbberPos i + 2).toNat]? = some '-' ∧
    (throbber i).map List.length = some 46 ∧
    (throbber i).map (List.count 'O') = some 1 ∧
    (throbber i).map (List.drop 23) = some (List.replicate 23 '\x08') ∧
    throbberBase.length = 23 ∧
    (∀ k : Fin 23, throbberBase[k.val]? = some '-' ↔ (2 ≤ k.val ∧ k.val ≤ 21)) := by
  obtain ⟨n, rfl⟩ := Int.eq_ofNat_of_zero_le hi
  refine ⟨rfl, ?_⟩
  rw [throbber_natCast, throbberPos_natCast]
  have h := throbber_fin ⟨n % 40, Nat.mod_lt _ (by decide)⟩
  obtain ⟨h1, h2, h3, h4, h5, h6, h7, h8, h9, h10⟩ := h
  exact ⟨h1, h2, h3, h4, h5, h6, h7, h8, h9, h10, by decide, by decide⟩

/-- C10 at `i = 65`: `65 mod 40 = 25`, so `p = 14` and the `'O'` is written at index 16. -/
theorem throbber_in_track_witness :
    (0 : Int) ≤ 65 ∧ throbberPos 65 = 14 ∧
    throbber 65 = some (throbberBase.set 16 'O' ++ List.replicate 23 '\x08') :=
  ⟨by decide, by decide, (throbber_in_track 65 (by decide)).2.2.2.1⟩

/-! ## The notification callback: samples -/

theorem byteAt_lt (d : List Nat) (k : Nat) : byteAt d k < 256 :=
  Nat.mod_lt _ (by decide)

theorem byteAt_of_getElem? (d : List Nat) (k b : Nat) (h : d[k]? = some b) :
    byteAt d k = b % 256 := by
  simp [byteAt, List.getD, h]

theorem samples_eq (d : List Nat) :
    samples d = [sampleAt d 0, sampleAt d 1, sampleAt d 2, sampleAt d 3, sampleAt d 4,
      sampleAt d 5, sampleAt d 6] := rfl

theorem pushSamples_eq_foldl (k : Nat) (d : List Nat) (points : List Int) :
    pushSamples k d points = ((List.range k).map (sampleAt d)).foldl pushPoint points := by
  unfold pushSamples
  rw [List.foldl_map]

theorem pushPoint_eq_keepLast (points : List Int) (val : Int) (h : points.length ≤ 300) :
    pushPoint points val = keepLast 300 (points ++ [val]) := by
  unfold pushPoint keepLast
  simp only [List.length_append, List.length_singleton]
  by_cases h300 : points.length + 1 > 300
  · rw [if_pos h300]
    have : points.length + 1 - 300 = 1 := by omega
    rw [this, List.drop_one]
  · rw [if_neg h300]
    have : points.length + 1 - 300 = 0 := by omega
    rw [this, List.drop_zero]

theorem length_keepLast (n : Nat) (l : List Int) : (keepLast n l).length = min l.length n := by
  unfold keepLast
  rw [List.length_drop]
  omega

theorem keepLast_append (a b : List Int) :
    keepLast 300 (keepLast 300 a ++ b) = keepLast 300 (a ++ b) := by
  unfold keepLast
  have hle : a.length - 300 ≤ a.length := Nat.sub_le _ _
  rw [← List.drop_append_of_le_length hle, List.drop_drop]
  refine congrArg (fun k => List.drop k (a ++ b)) ?_
  simp only [List.length_drop, List.length_append]
  omega

theorem foldl_pushPoint (vs : List Int) :
    ∀ points : List Int, points.length ≤ 300 →
      vs.foldl pushPoint points = keepLast 300 (points ++ vs) := by
  induction vs with
  | nil =>
    intro points h
    simp only [List.foldl_nil, List.append_nil, keepLast]
    have : points.length - 300 = 0 := by omega
    rw [this, List.drop_zero]
  | cons v rest ih =>
    intro points h
    have hlen : (pushPoint points v).length ≤ 300 := by
      rw [pushPoint_eq_keepLast points v h, length_keepLast]
      omega
    rw [List.foldl_cons, ih _ hlen, pushPoint_eq_keepLast points v h, keepLast_append,
      List.append_assoc, List.singleton_append]

theorem sampleAt_eq (d : List Nat) (i : Nat) :
    sampleAt d i = ((byteAt d (2 * i) + 256 * byteAt d (2 * i + 1) : Nat) : Int) := by
  unfold sampleAt
  rw [Nat.zero_add, Nat.add_comm 1 (2 * i)]
  congr 1
  omega

/-- C7. For a payload `d` of at least 14 bytes and `i` in 0..6, the value pushed by
iteration `i` is the unsigned 16-bit little-endian integer `d[2i] + 256*d[2i+1]` of the two
bytes read as `uint8_t`; it lies in 0..65535; two payloads give the same value only if they
agree on both bytes; the callback pushes the seven values in increasing order of `i`, and
they depend only on bytes 0..13. -/
theorem sample_extraction (d : List Nat) (hlen : 14 ≤ d.length) (i : Nat) (hi : i < 7) :
    (∃ lo hi8 : Nat, d[2 * i]? = some lo ∧ d[2 * i + 1]? = some hi8 ∧
      sampleAt d i = ((lo % 256 + 256 * (hi8 % 256) : Nat) : Int)) ∧
    sampleAt d i = ((byteAt d (2 * i) + 256 * byteAt d (2 * i + 1) : Nat) : Int) ∧
    0 ≤ sampleAt d i ∧ sampleAt d i ≤ 65535 ∧
    (∀ d2 : List Nat, sampleAt d2 i = sampleAt d i →
      byteAt d2 (2 * i) = byteAt d (2 * i) ∧ byteAt d2 (2 * i + 1) = byteAt d (2 * i + 1)) ∧
    (samples d)[i]? = some (sampleAt d i) ∧
    (samples d).length = 7 ∧
    (∀ points : List Int, pushSamples 7 d points = (samples d).foldl pushPoint points) ∧
    (∀ points : List Int, points.length + 7 ≤ 300 →
      pushSamples 7 d points = points ++ samples d) ∧
    (∀ d2 : List Nat, (∀ k : Nat, k < 14 → byteAt d2 k = byteAt d k) →
      samples d2 = samples d) := by
  have h0 : 2 * i < d.length := by omega
  have h1 : 2 * i + 1 < d.length := by omega
  have hlo := byteAt_lt d (2 * i)
  have hhi := byteAt_lt d (2 * i + 1)
  refine ⟨⟨d[2 * i], d[2 * i + 1], List.getElem?_eq_getElem h0, List.getElem?_eq_getElem h1, ?_⟩,
    sampleAt_eq d i, ?_, ?_, ?_, ?_, rfl, ?_, ?_, ?_⟩
  · rw [sampleAt_eq, byteAt_of_getElem? d _ _ (List.getElem?_eq_getElem h0),
      byteAt_of_getElem? d _ _ (List.getElem?_eq_getElem h1)]
  · rw [sampleAt_eq]
    exact Int.ofNat_nonneg _
  · rw [sampleAt_eq]
    have : byteAt d (2 * i) + 256 * byteAt d (2 * i + 1) ≤ 65535 := by omega
    exact_mod_cast this
  · intro d2 h
    rw [sampleAt_eq, sampleAt_eq] at h
    have h2 := Int.ofNat.inj h
    have hlo2 := byteAt_lt d2 (2 * i)
    have hhi2 := byteAt_lt d2 (2 * i + 1)
    omega
  · rw [samples_eq]
    interval_cases i <;> rfl
  · intro points
    rw [pushSamples_eq_foldl]
    rfl
  · intro points hp
    rw [pushSamples_eq_foldl]
    change (samples d).foldl pushPoint points = _
    rw [foldl_pushPoint _ points (by omega)]
    unfold keepLast
    have : (points ++ samples d).length - 300 = 0 := by
      rw [List.length_append, samples_eq]
      simp only [List.length_cons, List.length_nil]
      omega
    rw [this, List.drop_zero]
  · intro d2 h
    rw [samples_eq, samples_eq]
    simp only [sampleAt]
    rw [h 0 (by decide), h 1 (by decide), h 2 (by decide), h 3 (by decide), h 4 (by decide),
      h 5 (by decide), h 6 (by decide), h 7 (by decide), h 8 (by decide), h 9 (by decide),
      h 10 (by decide), h 11 (by decide), h 12 (by decide), h 13 (by decide)]

/-- C7 at the 20-byte payload 0, 1, ..., 19 and `i = 3`: the bytes `d[6] = 6` and
`d[7] = 7` give the value `6 + 256*7 = 1798`. -/
theorem sample_extraction_witness :
    14 ≤ payloadCount.length ∧ 3 < 7 ∧ (samples payloadCount)[3]? = some 1798 ∧
    sampleAt payloadCount 3 = 1798 :=
  ⟨by decide, by decide, (sample_extraction payloadCount (by decide) 3 (by decide)).2.2.2.2.2.1,
    by decide⟩

/-! ## The notification callback: the window of plotted points -/

theorem length_samples (d : List Nat) : (samples d).length = 7 := rfl

theorem length_allSamples (ds : List (List Nat)) : (allSamples ds).length = 7 * ds.length := by
  induction ds with
  | nil => rfl
  | cons d rest ih =>
    have : allSamples (d :: rest) = samples d ++ allSamples rest := rfl
    rw [this, List.length_append, ih, length_samples, List.length_cons]
    omega

theorem notify_cb_points (s : CbState) (d : List Nat) (h : s.points.length ≤ 300) :
    (notify_cb s d).points = keepLast 300 (s.points ++ samples d) := by
  have : (notify_cb s d).points = pushSamples 7 d s.points := by
    simp only [notify_cb]
  rw [this, pushSamples_eq_foldl]
  exact foldl_pushPoint (samples d) s.points h

theorem foldl_notify_cb_points (ds : List (List Nat)) :
    ∀ s : CbState, s.points.length ≤ 300 →
      (ds.foldl notify_cb s).points = keepLast 300 (s.points ++ allSamples ds) := by
  induction ds with
  | nil =>
    intro s h
    have : allSamples [] = [] := rfl
    rw [List.foldl_nil, this, List.append_nil]
    unfold keepLast
    have h0 : s.points.length - 300 = 0 := by omega
    rw [h0, List.drop_zero]
  | cons d rest ih =>
    intro s h
    have hstep := notify_cb_points s d h
    have hlen : (notify_cb s d).points.length ≤ 300 := by
      rw [hstep, length_keepLast]
      omega
    have hall : allSamples (d :: rest) = samples d ++ allSamples rest := rfl
    rw [List.foldl_cons, ih _ hlen, hstep, keepLast_append, hall, List.append_assoc]

theorem runCallbacks_points (ds : List (List Nat)) :
    (runCallbacks ds).points = keepLast 300 (allSamples ds) := by
  have h0 : CbState.init.points.length ≤ 300 := Nat.zero_le _
  have h := foldl_notify_cb_points ds CbState.init h0
  have hnil : CbState.init.points ++ allSamples ds = allSamples ds := List.nil_append _
  rw [hnil] at h
  exact h

/-- C9. Starting from the empty deque, after the callback ran for `n` notifications the
deque `points` has exactly `min(7n, 300)` elements, which are the most recent
`min(7n, 300)` extracted sample values in arrival order, oldest first; and after every
single push/pop step of a following callback it has at most 300 elements. -/
theorem points_sliding_window (ds : List (List Nat)) :
    CbState.init.points = [] ∧
    (allSamples ds).length = 7 * ds.length ∧
    (runCallbacks ds).points.length = min (7 * ds.length) 300 ∧
    (runCallbacks ds).points =
      (allSamples ds).drop ((allSamples ds).length - min (7 * ds.length) 300) ∧
    (∀ (d : List Nat) (k : Nat), k ≤ 7 →
      (pushSamples k d (runCallbacks ds).points).length ≤ 300) := by
  have hpts := runCallbacks_points ds
  have hall := length_allSamples ds
  have hlen : (runCallbacks ds).points.length = min (7 * ds.length) 300 := by
    rw [hpts, length_keepLast, hall]
  refine ⟨rfl, hall, hlen, ?_, ?_⟩
  · rw [hpts]
    unfold keepLast
    refine congrArg (fun k => List.drop k (allSamples ds)) ?_
    rw [hall]
    omega
  · intro d k _
    rw [pushSamples_eq_foldl, foldl_pushPoint _ _ (by rw [hlen]; omega), length_keepLast]
    omega

/-! ## The notification callback: the sequence number -/

theorem shiftLeft_lor_shiftLeft (b e : Nat) : (b <<< 8) ||| (e <<< 8) = (b ||| e) <<< 8 := by
  apply Nat.eq_of_testBit_eq
  intro i
  simp only [Nat.testBit_or, Nat.testBit_shiftLeft]
  cases decide (i ≥ 8) <;> simp

theorem seq_eq (d : List Nat) :
    seq d = byteAt d 14 + 2 ^ 8 * (byteAt d 15 ||| byteAt d 17) + 2 ^ 16 * byteAt d 16 := by
  have ha := byteAt_lt d 14
  have hb := byteAt_lt d 15
  have hc := byteAt_lt d 16
  have he := byteAt_lt d 17
  unfold seq
  generalize byteAt d 14 = a at *
  generalize byteAt d 15 = b at *
  generalize byteAt d 16 = c at *
  generalize byteAt d 17 = e at *
  have hbe : b ||| e < 2 ^ 8 := Nat.or_lt_two_pow (by omega) (by omega)
  have h1 : a ||| (b <<< 8) ||| (c <<< 16) ||| (e <<< 8) =
      (c <<< 16) ||| (((b <<< 8) ||| (e <<< 8)) ||| a) := by
    ac_rfl
  have h2 : 2 ^ 8 * (b ||| e) + a = 2 ^ 8 * (b ||| e) ||| a :=
    Nat.mul_add_lt_is_or (by omega) _
  have h3 : 2 ^ 8 * (b ||| e) + a < 2 ^ 16 := by omega
  have h4 : 2 ^ 16 * c + (2 ^ 8 * (b ||| e) + a) = 2 ^ 16 * c ||| (2 ^ 8 * (b ||| e) + a) :=
    Nat.mul_add_lt_is_or h3 _
  rw [h1, shiftLeft_lor_shiftLeft, Nat.shiftLeft_eq, Nat.shiftLeft_eq, Nat.mul_comm c,
    Nat.mul_comm (b ||| e), ← h2, ← h4]
  omega

/-- C8 on the code: `seq` shifts `d[17]` by 8, not by 24, so it is
`d[14] + 2^8*(d[15] | d[17]) + 2^16*d[16]` for every payload. On the 20-byte payload whose
only non-zero byte is `d[17] = 1` it is 256, while the little-endian integer of bytes
14..17 is `2^24 = 16777216`; and the payload whose only non-zero byte is `d[15] = 1` gives
the same `seq` although the two differ in bytes 15 and 17. -/
theorem seq_high_byte_shift :
    (∀ d : List Nat,
      seq d = byteAt d 14 + 2 ^ 8 * (byteAt d 15 ||| byteAt d 17) + 2 ^ 16 * byteAt d 16) ∧
    payloadHigh.length = 20 ∧
    seq payloadHigh = 256 ∧
    seqLittleEndian payloadHigh = 16777216 ∧
    seq payloadHigh ≠ seqLittleEndian payloadHigh ∧
    seq payloadLow = seq payloadHigh ∧
    byteAt payloadLow 15 ≠ byteAt payloadHigh 15 ∧
    byteAt payloadLow 17 ≠ byteAt payloadHigh 17 := by
  refine ⟨seq_eq, ?_, ?_, ?_, ?_, ?_, ?_, ?_⟩ <;> decide

end Example

end BLEPP
